import Mathlib

/-!
Verification development for the AttoClaw gateway core.

The definitions below are shallow embeddings of the C++ sources under
include/attoclaw (tools.hpp, agent.hpp, cron.hpp, session.hpp,
atomic_queue.hpp, external_cli.hpp, context.hpp).  JSON values are modelled
by an inductive; nlohmann objects iterate in key order and hold unique keys,
so an object is represented by its (ordered) entry list.  Machine integers
are modelled by Nat/Int (no operation here approaches 64-bit wrap-around).
-/

/-- JSON values as used by the tool layer (tools.hpp).  A float constructor is
omitted: no claim touches non-integral numbers, and the validator only
distinguishes integer from general number. -/
inductive Json where
  | null : Json
  | b (v : Bool) : Json
  | i (v : Int) : Json
  | s (v : String) : Json
  | arr (items : List Json) : Json
  | obj (fields : List (String × Json)) : Json
deriving Inhabited, Repr

mutual

/-- Structural equality, modelling nlohmann operator== on the fragment we use
(enum members in this codebase are strings, so object-order insensitivity of
the C++ comparison is immaterial). -/
def jsonBeq : Json → Json → Bool
  | .null, .null => true
  | .b a, .b c => a == c
  | .i a, .i c => a == c
  | .s a, .s c => a == c
  | .arr xs, .arr ys => jsonBeqList xs ys
  | .obj xs, .obj ys => jsonBeqFields xs ys
  | _, _ => false

/-- Elementwise equality of JSON arrays. -/
def jsonBeqList : List Json → List Json → Bool
  | [], [] => true
  | x :: xs, y :: ys => jsonBeq x y && jsonBeqList xs ys
  | _, _ => false

/-- Entrywise equality of JSON objects. -/
def jsonBeqFields : List (String × Json) → List (String × Json) → Bool
  | [], [] => true
  | (k, v) :: xs, (k', v') :: ys => k == k' && jsonBeq v v' && jsonBeqFields xs ys
  | _, _ => false

end

instance : BEq Json := ⟨jsonBeq⟩

/-- Lookup of a key in a JSON value; none when the value is not an object or
the key is absent (json::find / json::contains). -/
def Json.find (j : Json) (k : String) : Option Json :=
  match j with
  | .obj fs => fs.lookup k
  | _ => none

/-- Key-membership test (json::contains). -/
def Json.containsKey (j : Json) (k : String) : Bool :=
  (j.find k).isSome

/-- Value of a string member with default (json::value for strings; the C++
call would throw on a non-string member, which never happens for the schemas
and arguments the claims range over, so the default is returned instead). -/
def Json.valueS (j : Json) (k : String) (dflt : String) : String :=
  match j.find k with
  | some (.s v) => v
  | _ => dflt

/-- Value of an integer member with default (json::value for ints, same
convention as valueS). -/
def Json.valueI (j : Json) (k : String) (dflt : Int) : Int :=
  match j.find k with
  | some (.i v) => v
  | _ => dflt

/-- Json.is_array. -/
def Json.isArr : Json → Bool
  | .arr _ => true
  | _ => false

/-- Tool::type_ok from tools.hpp: does a JSON value belong to a schema type
name. -/
def type_ok (value : Json) (type_name : String) : Bool :=
  if type_name = "string" then (match value with | .s _ => true | _ => false)
  else if type_name = "integer" then (match value with | .i _ => true | _ => false)
  else if type_name = "number" then (match value with | .i _ => true | _ => false)
  else if type_name = "boolean" then (match value with | .b _ => true | _ => false)
  else if type_name = "array" then value.isArr
  else if type_name = "object" then (match value with | .obj _ => true | _ => false)
  else true

/-- The enum check of Tool::validate_node, split out for proof modularity. -/
def enum_errs (enumOpt : Option Json) (value : Json) (label : String) : List String :=
  match enumOpt with
  | some (.arr es) =>
      if es.any (fun e => e == value) then [] else [label ++ " has invalid enum value"]
  | _ => []

/-- The required-keys check of Tool::validate_node (non-string entries of the
required array would make the C++ get throw; no schema in the repository has
any, and they are skipped here). -/
def required_errs (reqOpt : Option Json) (value : Json) (label : String) : List String :=
  match reqOpt with
  | some (.arr rs) =>
      rs.filterMap (fun r =>
        match r with
        | .s key =>
            if value.containsKey key then none
            else some ("missing required " ++ label ++ "." ++ key)
        | _ => none)
  | _ => []

mutual

/-- Tool::validate_node from tools.hpp: returns the list of schema-violation
messages, in the order the C++ code pushes them (type short-circuits; then
enum; then, for objects, required keys followed by per-property recursion in
object order; then array items). -/
def validate_node (value schema : Json) (label : String) : List String :=
  let t := schema.valueS "type" ""
  if t ≠ "" ∧ type_ok value t = false then
    [label ++ " should be " ++ t]
  else
    enum_errs (schema.find "enum") value label ++
    (if t = "object" then
       required_errs (schema.find "required") value label ++
       (match value with
        | .obj fs => validate_fields fs ((schema.find "properties").getD (.obj [])) label
        | _ => [])
     else []) ++
    (if t = "array" ∧ schema.containsKey "items" ∧ value.isArr then
       (match value, schema.find "items" with
        | .arr items, some isch => validate_items items isch label 0
        | _, _ => [])
     else [])

/-- Iteration over the entries of an object value, recursing into properties
that the schema declares. -/
def validate_fields (fs : List (String × Json)) (props : Json) (label : String) : List String :=
  match fs with
  | [] => []
  | (k, v) :: rest =>
      (match props.find k with
       | some psub => validate_node v psub (label ++ "." ++ k)
       | none => []) ++ validate_fields rest props label

/-- Iteration over the items of an array value against the items schema. -/
def validate_items (items : List Json) (isch : Json) (label : String) (i : Nat) : List String :=
  match items with
  | [] => []
  | x :: rest =>
      validate_node x isch (label ++ "[" ++ toString i ++ "]") ++ validate_items rest isch label (i + 1)

end

/-- A registered tool: name, parameter schema, and execution body.  A thrown
C++ exception is modelled by Except.error carrying e.what(). -/
structure ToolImpl where
  name : String
  parameters : Json
  exec : Json → Except String String

/-- Tool::validate: run the node validator on the whole argument object with
label "parameter". -/
def ToolImpl.validate (t : ToolImpl) (params : Json) : List String :=
  validate_node params t.parameters "parameter"

/-- ToolRegistry lookup (tools_.find): first tool with the given name; the
C++ map holds at most one per name. -/
def registry_find (tools : List ToolImpl) (name : String) : Option ToolImpl :=
  tools.find? (fun t => t.name == name)

/-- ToolRegistry::execute from tools.hpp: the three-stage protocol.  The error
join reproduces the C++ loop (separator between consecutive errors). -/
def ToolRegistry.execute (tools : List ToolImpl) (name : String) (params : Json) : String :=
  match registry_find tools name with
  | none => "Error: Tool '" ++ name ++ "' not found"
  | some t =>
      let errors := t.validate params
      if errors ≠ [] then
        "Error: Invalid parameters for tool '" ++ name ++ "': " ++ String.intercalate "; " errors
      else
        match t.exec params with
        | .ok r => r
        | .error e => "Error executing " ++ name ++ ": " ++ e

/-- Parameter schema of SystemInspectTool (tools.hpp), including the minimum
and maximum annotations on the limit property. -/
def system_inspect_parameters : Json :=
  .obj [("type", .s "object"),
        ("properties", .obj
          [("action", .obj [("type", .s "string"),
                            ("enum", .arr [.s "processes", .s "windows", .s "disks",
                                           .s "network", .s "uptime"])]),
           ("limit", .obj [("type", .s "integer"), ("minimum", .i 1), ("maximum", .i 200)])]),
        ("required", .arr [.s "action"])]

/-- The limit computation at the head of SystemInspectTool::execute:
std::clamp(params.value("limit", 20), 1, 200). -/
def system_inspect_limit (params : Json) : Int :=
  max 1 (min 200 (params.valueI "limit" 20))

mutual

/-- Removal of every minimum/maximum annotation from a schema: drops those
keys from the schema object and recurses into the schemas reachable through
properties and items.  Non-schema positions (enum members, defaults) are left
untouched. -/
def stripMinMax : Json → Json
  | .obj fs => .obj (stripMinMaxFields fs)
  | j => j

/-- Field traversal for stripMinMax. -/
def stripMinMaxFields : List (String × Json) → List (String × Json)
  | [] => []
  | (k, v) :: rest =>
      if k = "minimum" ∨ k = "maximum" then stripMinMaxFields rest
      else if k = "properties" then (k, stripMinMaxProps v) :: stripMinMaxFields rest
      else if k = "items" then (k, stripMinMax v) :: stripMinMaxFields rest
      else (k, v) :: stripMinMaxFields rest

/-- Strip minimum/maximum inside each property schema of a properties map. -/
def stripMinMaxProps : Json → Json
  | .obj fs => .obj (stripMinMaxPropsFields fs)
  | j => j

/-- Entry traversal for stripMinMaxProps. -/
def stripMinMaxPropsFields : List (String × Json) → List (String × Json)
  | [] => []
  | (k, v) :: rest => (k, stripMinMax v) :: stripMinMaxPropsFields rest

end

/-- Character class of std::isspace in the default locale (external_cli.hpp
uses it for word boundaries). -/
def is_space_char (c : Char) : Bool :=
  c == ' ' || c == '\t' || c == '\n' || c == '\x0b' || c == '\x0c' || c == '\r'

/-- Character class of the trim helper in common.hpp (space, tab, CR, LF). -/
def is_trim_char (c : Char) : Bool :=
  c == ' ' || c == '\t' || c == '\r' || c == '\n'

/-- The trim helper from common.hpp: strip leading and trailing members of
the trim class. -/
def trim (s : String) : String :=
  String.mk (((s.toList.dropWhile is_trim_char).reverse.dropWhile is_trim_char).reverse)

/-- cli_to_lower from external_cli.hpp (bytewise tolower; inputs are ASCII). -/
def cli_to_lower (s : String) : String :=
  String.mk (s.toList.map Char.toLower)

/-- First position at or after start where needle occurs in hay
(std::string::find with a start offset); none when absent. -/
def find_from (hay needle : List Char) : Nat → Nat → Option Nat
  | 0, _ => none
  | fuel + 1, start =>
      if start + needle.length ≤ hay.length then
        if (hay.drop start).take needle.length == needle then some start
        else find_from hay needle fuel (start + 1)
      else none

/-- has_suffix_token_ci from external_cli.hpp: the text ends with the token
(case-insensitively) at a word boundary. -/
def has_suffix_token_ci (text token_lower : String) : Bool :=
  let tc := text.toList
  let tk := token_lower.toList
  if tc.length < tk.length then false
  else
    let start := tc.length - tk.length
    if (tc.drop start).map Char.toLower == tk then
      start == 0 || is_space_char (tc.getD (start - 1) ' ')
    else false

/-- Scanning loop of strip_token_whole_word_ci: find the (lowercased) token
from pos; skip occurrences that are not whitespace-delimited; erase the
others in place and rescan from the erase point.  Each iteration either
advances pos or shortens the text, so text.length + 1 units of fuel always
suffice. -/
def strip_loop (token : List Char) : Nat → List Char → Nat → Bool → List Char × Bool
  | 0, text, _, found => (text, found)
  | fuel + 1, text, pos, found =>
      if pos < text.length then
        let lower := text.map Char.toLower
        match find_from lower token (lower.length + 1) pos with
        | none => (text, found)
        | some at0 =>
            let left_ok := at0 == 0 || is_space_char (text.getD (at0 - 1) ' ')
            let e := at0 + token.length
            let right_ok := text.length ≤ e || is_space_char (text.getD e ' ')
            if left_ok && right_ok then
              strip_loop token fuel (text.take at0 ++ text.drop e) at0 true
            else
              strip_loop token fuel text e found
      else (text, found)

/-- strip_token_whole_word_ci from external_cli.hpp: remove every
whitespace-delimited occurrence of the token (case-insensitive); when any was
removed, trim the result.  Returns the new text and the found flag. -/
def strip_token_whole_word_ci (text token_lower : String) : String × Bool :=
  let (cs, found) := strip_loop token_lower.toList (text.length + 1) text.toList 0 false
  (if found then trim (String.mk cs) else String.mk cs, found)

/-- ExternalCliRoute from external_cli.hpp. -/
structure ExternalCliRoute where
  name : String
  suffix : String
  prompt : String
deriving DecidableEq, Repr

/-- ParsedExternalRequest from external_cli.hpp. -/
structure ParsedExternalRequest where
  prompt : String
  vision_enabled : Bool
  external_cli : Option ExternalCliRoute
deriving DecidableEq, Repr

/-- parse_external_request from external_cli.hpp: trim; route a trailing
codex/gemini suffix; then strip vision tokens from the remaining prompt and
mirror the final prompt into the route. -/
def parse_external_request (content : String) : ParsedExternalRequest :=
  let prompt0 := trim content
  if prompt0 = "" then ⟨prompt0, false, none⟩
  else
    let (cli, p1) :=
      if has_suffix_token_ci prompt0 "--codex" then
        let p := trim (String.mk (prompt0.toList.take (prompt0.length - 7)))
        (some (ExternalCliRoute.mk "codex" "--codex" p), p)
      else if has_suffix_token_ci prompt0 "--gemini" then
        let p := trim (String.mk (prompt0.toList.take (prompt0.length - 8)))
        (some (ExternalCliRoute.mk "gemini" "--gemini" p), p)
      else (none, prompt0)
    let (p2, vision) := strip_token_whole_word_ci p1 "--vision"
    let cli2 := cli.map (fun r => { r with prompt := p2 })
    ⟨p2, vision, cli2⟩

/-- One slot of the Vyukov ring (atomic_queue.hpp): its sequence counter and
payload.  The payload starts uninitialised, hence the Option. -/
structure QCell (α : Type) where
  seq : Nat
  data : Option α
deriving Repr, DecidableEq, Inhabited

/-- Whole-queue state: the slot array plus the enqueue and dequeue tickets. -/
structure QState (α : Type) where
  cells : List (QCell α)
  epos : Nat
  dpos : Nat
deriving Repr, DecidableEq

/-- Constructor of AtomicMPMCQueue: slot i starts with sequence i. -/
def initQ (α : Type) (C : Nat) : QState α :=
  ⟨(List.range C).map (fun i => ⟨i, none⟩), 0, 0⟩

/-- Slot access cells_[i]. -/
def cellAt {α : Type} (s : QState α) (i : Nat) : QCell α :=
  s.cells.getD i ⟨0, none⟩

/-- try_push under sequential execution (one operation at a time, so the CAS
always succeeds on the spot): diff = 0 claims the slot and publishes, diff
less than 0 reports full.  A positive diff would loop forever reloading the
same ticket in a sequential run; that case is represented by none and is
proved unreachable from queue states related to an abstract list. -/
def try_push {α : Type} (C : Nat) (s : QState α) (v : α) : Option (Bool × QState α) :=
  let pos := s.epos
  let cell := cellAt s (pos % C)
  let diff : Int := (cell.seq : Int) - (pos : Int)
  if diff = 0 then
    some (true, ⟨s.cells.set (pos % C) ⟨pos + 1, some v⟩, pos + 1, s.dpos⟩)
  else if diff < 0 then some (false, s)
  else none

/-- try_pop under sequential execution, mirroring try_push: diff = 0 takes
the value and re-arms the slot for lap pos + C, diff less than 0 reports
empty.  The moved-from C++ slot keeps holding the object; the model keeps the
data field unchanged (free slots are unconstrained anyway). -/
def try_pop {α : Type} (C : Nat) (s : QState α) : Option (Bool × Option α × QState α) :=
  let pos := s.dpos
  let cell := cellAt s (pos % C)
  let diff : Int := (cell.seq : Int) - ((pos : Int) + 1)
  if diff = 0 then
    some (true, cell.data, ⟨s.cells.set (pos % C) ⟨pos + C, cell.data⟩, s.epos, pos + 1⟩)
  else if diff < 0 then some (false, none, s)
  else none

/-- Abstraction relation between a queue state and the list of buffered
values (oldest first).  Occupied ring positions p in [dpos, epos) hold
sequence p + 1 and the corresponding element; free positions p in
[epos, dpos + C) hold sequence p. -/
abbrev QRel {α : Type} [Inhabited α] [DecidableEq α] (C : Nat) (s : QState α) (l : List α) : Prop :=
  s.cells.length = C ∧ s.dpos ≤ s.epos ∧ s.epos ≤ s.dpos + C ∧ s.epos - s.dpos = l.length ∧
  (∀ k, k < l.length → cellAt s ((s.dpos + k) % C) = ⟨s.dpos + k + 1, some (l.getD k default)⟩) ∧
  (∀ k, k < C - l.length → (cellAt s ((s.epos + k) % C)).seq = s.epos + k)

/-- InboundMessage from events.hpp (fields the agent loop inspects). -/
structure Env where
  channel : String
  sender_id : String
  chat_id : String
  content : String
deriving DecidableEq, Repr

/-- OutboundMessage from events.hpp (fields the claims inspect). -/
structure OutEnv where
  channel : String
  chat_id : String
  content : String
deriving DecidableEq, Repr

/-- The test in poll_for_stop_signal (agent.hpp): a /stop command addressed
to the active session.  AgentLoop::to_lower has the same body as
cli_to_lower. -/
def is_stop_for (active_channel active_chat_id : String) (m : Env) : Bool :=
  (m.channel == active_channel && m.chat_id == active_chat_id)
    && (cli_to_lower (trim m.content) == "/stop")

/-- The agent-loop state touched by the stop poll and the run scope: the two
atomic flags, both bus queues (inbound at the front is the next message
try_consume_inbound pops), and the deferred buffer. -/
structure AgentSt where
  cancel_requested : Bool
  task_in_progress : Bool
  inbound : List Env
  deferred_inbound : List Env
  outbound : List OutEnv
deriving DecidableEq, Repr

/-- The batch loop inside poll_for_stop_signal: pop up to fuel envelopes
(the source uses kBatch = 8); a /stop for the active session sets the cancel
flag (publishing the notice only on the first transition), anything else is
stashed on the deferred buffer. -/
def poll_loop (ac aid : String) : Nat → AgentSt → AgentSt
  | 0, s => s
  | fuel + 1, s =>
      match s.inbound with
      | [] => s
      | m :: rest =>
          if is_stop_for ac aid m then
            let first := !s.cancel_requested
            let s1 := { s with cancel_requested := true, inbound := rest }
            let s2 :=
              if first then
                { s1 with outbound := s1.outbound ++ [⟨ac, aid, "Stopping current task..."⟩] }
              else s1
            poll_loop ac aid fuel s2
          else
            poll_loop ac aid fuel
              { s with inbound := rest, deferred_inbound := s.deferred_inbound ++ [m] }

/-- AgentLoop::poll_for_stop_signal: short-circuit when already cancelled,
else drain a batch of at most 8 and report the cancel flag. -/
def poll_for_stop_signal (ac aid : String) (s : AgentSt) : Bool × AgentSt :=
  if s.cancel_requested then (true, s)
  else
    let s1 := poll_loop ac aid 8 s
    (s1.cancel_requested, s1)

/-- AgentLoop::flush_deferred_inbound: republish every deferred envelope to
the inbound queue, in stash order. -/
def flush_deferred_inbound (s : AgentSt) : AgentSt :=
  { s with deferred_inbound := [], inbound := s.inbound ++ s.deferred_inbound }

/-- RequestRunScope constructor: raise task_in_progress, clear
cancel_requested (the vision toggle has no footprint in this state). -/
def scope_enter (s : AgentSt) : AgentSt :=
  { s with task_in_progress := true, cancel_requested := false }

/-- RequestRunScope destructor: flush deferred, clear both flags. -/
def scope_exit (s : AgentSt) : AgentSt :=
  let s1 := flush_deferred_inbound s
  { s1 with cancel_requested := false, task_in_progress := false }

/-- A turn body wrapped in the run scope.  C++ mutates the owning AgentLoop in
place, so an exception (Except.error) still leaves the mutated state behind:
the body returns its state in both outcomes, and the destructor runs on every
exit path. -/
def run_scope {A : Type} (body : AgentSt → Except String A × AgentSt) (s : AgentSt) :
    Except String A × AgentSt :=
  let r := body (scope_enter s)
  (r.1, scope_exit r.2)

/-- One entry of the LLM message array (role and content, the shape
ContextBuilder::build_messages pushes). -/
structure ChatMsg where
  role : String
  content : String
deriving DecidableEq, Repr

/-- ContextBuilder::build_messages: system prompt (suffixed with the current
session block when channel and chat id are nonempty), then history, then the
current user message.  The composed system prompt (identity, bootstrap files,
memory, skills) is filesystem-dependent and enters as the sys parameter. -/
def build_messages (sys : String) (history : List ChatMsg) (current channel chat_id : String) :
    List ChatMsg :=
  let sysFull :=
    if channel ≠ "" ∧ chat_id ≠ "" then
      sys ++ "\n\n## Current Session\nChannel: " ++ channel ++ "\nChat ID: " ++ chat_id
    else sys
  ⟨"system", sysFull⟩ :: (history ++ [⟨"user", current⟩])

/-- Origin parsing at the head of AgentLoop::process_system_message: split the
envelope chat_id at its first colon; with no colon the channel defaults to
cli and the chat id is taken whole. -/
def split_origin (chat_id : String) : String × String :=
  let cs := chat_id.toList
  match cs.findIdx? (fun c => c == ':') with
  | some p => (String.mk (cs.take p), String.mk (cs.drop (p + 1)))
  | none => ("cli", chat_id)

/-- Observable trace of one process_system_message call: the message array
handed to run_agent_loop, the outbound envelope, and the two session rows it
appends. -/
structure SystemTurnResult where
  initial : List ChatMsg
  out : OutEnv
  recorded_user : String
  recorded_assistant : String
deriving Repr

/-- AgentLoop::process_system_message: parse the origin, run a full turn on
the announcement content, record the turn in the session (user row carries
the "[System] " prefix) and address the reply to the origin session.  The
turn itself (provider plus tools) enters as the turn parameter; the session
history and composed system prompt are the history and sys parameters. -/
def process_system_message (turn : List ChatMsg → String) (sys : String)
    (history : List ChatMsg) (msg : Env) : SystemTurnResult :=
  let oc := (split_origin msg.chat_id).1
  let oid := (split_origin msg.chat_id).2
  let initial := build_messages sys history msg.content oc oid
  let final := turn initial
  ⟨initial, ⟨oc, oid, final⟩, "[System] " ++ msg.content, final⟩

/-- The system-channel dispatch at the head of AgentLoop::process_message:
the stop sentinel yields nothing, every other system envelope is processed as
an announcement. -/
def process_message_system_branch (turn : List ChatMsg → String) (sys : String)
    (history : List ChatMsg) (msg : Env) : Option SystemTurnResult :=
  if msg.channel = "system" ∧ msg.content = "stop" then none
  else if msg.channel = "system" then some (process_system_message turn sys history msg)
  else none

/-- SessionMessage from session.hpp. -/
structure SessionMessage where
  role : String
  content : String
  timestamp : String
  tools_used : List String
deriving DecidableEq, Repr

/-- Session from session.hpp. -/
structure Session where
  key : String
  messages : List SessionMessage
  created_at : String
  updated_at : String
  last_consolidated : Nat
deriving DecidableEq, Repr

/-- Session::add_message (the two now_iso8601 calls inside it are merged into
the single now parameter; no claim separates them). -/
def Session.add_message (s : Session) (role content now : String)
    (tools_used : List String := []) : Session :=
  { s with messages := s.messages ++ [⟨role, content, now, tools_used⟩], updated_at := now }

/-- Session::clear. -/
def Session.clear (s : Session) (now : String) : Session :=
  { s with messages := [], last_consolidated := 0, updated_at := now }

/-- AgentLoop::consolidate_memory: archive the slice [start, end) of the
message list to the long-term history store (returned here as the second
component; the C++ renders those messages into one text block) and advance
last_consolidated.  Mirrors the source including its early returns. -/
def consolidate_memory (mw : Nat) (archive_all : Bool) (s : Session) :
    Session × List SessionMessage :=
  let keep := if archive_all then 0 else max 1 (mw / 2)
  if s.messages.length ≤ keep then (s, [])
  else
    let start := if archive_all then 0 else s.last_consolidated
    let stop := if archive_all then s.messages.length else s.messages.length - keep
    if start ≥ stop ∨ stop > s.messages.length then (s, [])
    else
      let slice := (s.messages.drop start).take (stop - start)
      if archive_all then ({ s with messages := [], last_consolidated := 0 }, slice)
      else ({ s with last_consolidated := stop }, slice)

/-- Session states the agent can hold in memory: freshly created (or cleared
by /new), grown by add_message, or consolidated at the start of a user turn
(which the source guards by size > memory_window). -/
inductive ReachableSession (mw : Nat) : Session → Prop where
  | init (key created updated : String) :
      ReachableSession mw ⟨key, [], created, updated, 0⟩
  | add (s : Session) (role content now : String) (tools : List String)
      (h : ReachableSession mw s) :
      ReachableSession mw (s.add_message role content now tools)
  | clearOp (s : Session) (now : String) (h : ReachableSession mw s) :
      ReachableSession mw (s.clear now)
  | consolidateOp (s : Session) (h : ReachableSession mw s)
      (htrig : mw < s.messages.length) :
      ReachableSession mw (consolidate_memory mw false s).1

/-- One persisted JSON-lines row (session.hpp): the fields save emits and
load reads.  The rtype field models the "_type" key.  The string layer
(json::dump and json::parse per line) is the nlohmann library's round trip
and is external to the repository. -/
structure JRow where
  rtype : Option String
  created_at : Option String
  updated_at : Option String
  last_consolidated : Option Nat
  role : Option String
  content : Option String
  timestamp : Option String
  tools_used : Option (List String)
deriving DecidableEq, Repr

/-- A row with every field absent. -/
def emptyRow : JRow := ⟨none, none, none, none, none, none, none, none⟩

/-- SessionManager::save: one metadata row, then one row per message;
tools_used is emitted only when nonempty. -/
def SessionManager.save (s : Session) : List JRow :=
  { emptyRow with
      rtype := some "metadata",
      created_at := some s.created_at,
      updated_at := some s.updated_at,
      last_consolidated := some s.last_consolidated }
    :: s.messages.map (fun m =>
        { emptyRow with
            role := some m.role,
            content := some m.content,
            timestamp := some m.timestamp,
            tools_used := if m.tools_used = [] then none else some m.tools_used })

/-- Row loop of SessionManager::load: the first row may be metadata, every
other row is a message with per-field defaults (now models the now_iso8601
default timestamp). -/
def load_rows (now : String) : List JRow → Bool → Session → Session
  | [], _, s => s
  | row :: rest, first, s =>
      if first ∧ row.rtype.getD "" = "metadata" then
        load_rows now rest false
          { s with
              created_at := row.created_at.getD s.created_at,
              updated_at := row.updated_at.getD s.updated_at,
              last_consolidated := row.last_consolidated.getD 0 }
      else
        let m : SessionMessage :=
          ⟨row.role.getD "assistant", row.content.getD "", row.timestamp.getD now,
           row.tools_used.getD []⟩
        load_rows now rest false { s with messages := s.messages ++ [m] }

/-- SessionManager::load: parse rows into a fresh session for the key (its
created_at and updated_at default to now, as the Session initializers do). -/
def SessionManager.load (key now : String) (rows : List JRow) : Session :=
  load_rows now rows true ⟨key, [], now, now, 0⟩

/-- The std::tm fields cron_match reads (tm_mon is 0-based, as in the C
library). -/
structure Tm where
  tm_min : Nat
  tm_hour : Nat
  tm_mday : Nat
  tm_mon : Nat
  tm_wday : Nat
deriving DecidableEq, Repr

/-- Gregorian leap-year test. -/
def isLeap (y : Nat) : Bool :=
  (y % 4 == 0 && y % 100 != 0) || (y % 400 == 0)

/-- Days in a Gregorian year. -/
def daysInYear (y : Nat) : Nat := if isLeap y then 366 else 365

/-- Month lengths of a year, Feb depending on leapness. -/
def monthLengths (leap : Bool) : List Nat :=
  [31, if leap then 29 else 28, 31, 30, 31, 30, 31, 31, 30, 31, 30, 31]

/-- Fuel-driven year walk: consume whole years while at least one fits.
Each step consumes at least 365 days, so fuel above d always suffices. -/
def yearFromFuel : Nat → Nat → Nat → Nat × Nat
  | 0, y, d => (y, d)
  | fuel + 1, y, d =>
      if daysInYear y ≤ d then yearFromFuel fuel (y + 1) (d - daysInYear y) else (y, d)

/-- Walk years forward from y consuming d days; returns the reached year and
the day offset within it. -/
def yearFrom (y d : Nat) : Nat × Nat := yearFromFuel (d + 1) y d

/-- Walk a month-length list consuming d days; returns the reached (1-based)
month and the day offset within it. -/
def monthFrom : List Nat → Nat → Nat → Nat × Nat
  | [], m, d => (m, d)
  | len :: rest, m, d => if d < len then (m, d) else monthFrom rest (m + 1) (d - len)

/-- Days since 1970-01-01 to (year, month, day-of-month), months and days
1-based. -/
def civilFromDays (days : Nat) : Nat × Nat × Nat :=
  let yd := yearFrom 1970 days
  let md := monthFrom (monthLengths (isLeap yd.1)) 1 yd.2
  (yd.1, md.1, md.2 + 1)

/-- Civil time of a POSIX timestamp.  Modelling note: the source calls
localtime_r, which is C-library code outside this repository; it is modelled
here as UTC civil time (the timezone-independent statements are proved
against an arbitrary conversion function, this concrete one feeds the
counterexample).  1970-01-01 was a Thursday, hence the +4 in tm_wday. -/
def utcTm (t : Nat) : Tm :=
  let days := t / 86400
  let secs := t % 86400
  let c := civilFromDays days
  ⟨secs % 3600 / 60, secs / 3600, c.2.2, c.2.1 - 1, (days + 4) % 7⟩

/-- Split a character list at every separator (String.split semantics: n
separators yield n+1 groups, empty groups included). -/
def splitBy (p : Char → Bool) : List Char → List (List Char)
  | [] => [[]]
  | c :: rest =>
      if p c then [] :: splitBy p rest
      else
        match splitBy p rest with
        | g :: gs => (c :: g) :: gs
        | [] => [[c]]

/-- CronService::parse_int: digits-only then stoi.  Accepts exactly the
nonempty all-digit strings; stoi would throw (hence reject) on values beyond
int range, which the callers' bounds checks reject equally. -/
def cron_parse_int (s : String) : Option Nat :=
  let cs := s.toList
  if cs ≠ [] ∧ cs.all (fun c => c.isDigit) then
    some (cs.foldl (fun acc c => acc * 10 + (c.toNat - 48)) 0)
  else none

/-- Mark one value in a cron field bitmap; weekday 7 aliases Sunday (0). -/
def cron_mark (marks : List Bool) (allow7 : Bool) (v : Nat) : List Bool :=
  if allow7 ∧ v = 7 then (marks.set 0 true).set 7 true else marks.set v true

/-- The marking loop (for v = start; v <= end; v += step) with the in-loop
bounds check; step is always positive here, so endV + 1 units of fuel cover
the iteration count. -/
def cron_mark_range (allow7 : Bool) (minV maxV step : Nat) :
    Nat → List Bool → Nat → Nat → Option (List Bool)
  | 0, marks, _, _ => some marks
  | fuel + 1, marks, v, endV =>
      if v > endV then some marks
      else if v < minV ∨ v > maxV then none
      else cron_mark_range allow7 minV maxV step fuel (cron_mark marks allow7 v) (v + step) endV

/-- Parse one comma-part of a cron field: optional /step suffix, then * or a
single value or a range; returns the updated bitmap and whether the part was
a star. -/
def parse_cron_part (minV maxV : Nat) (allow7 : Bool) (marks : List Bool) (part0 : String) :
    Option (List Bool × Bool) :=
  let part := trim part0
  if part = "" then none
  else
    let cs := part.toList
    let baseStep :=
      match cs.findIdx? (fun c => c == '/') with
      | some sl =>
          (String.mk (cs.take sl),
           match cron_parse_int (String.mk (cs.drop (sl + 1))) with
           | some st => if st = 0 then none else some st
           | none => none)
      | none => (part, some 1)
    match baseStep.2 with
    | none => none
    | some step =>
        let base := baseStep.1
        if base = "*" ∨ base = "" then
          (cron_mark_range allow7 minV maxV step (maxV + 1) marks minV maxV).map
            (fun m => (m, true))
        else
          let bs := base.toList
          match bs.findIdx? (fun c => c == '-') with
          | some d =>
              match cron_parse_int (String.mk (bs.take d)),
                    cron_parse_int (String.mk (bs.drop (d + 1))) with
              | some a, some bb =>
                  if a > bb then none
                  else (cron_mark_range allow7 minV maxV step (bb + 1) marks a bb).map
                    (fun m => (m, false))
              | _, _ => none
          | none =>
              match cron_parse_int base with
              | some a =>
                  (cron_mark_range allow7 minV maxV step (a + 1) marks a a).map
                    (fun m => (m, false))
              | none => none

/-- Fold over the comma-parts of a field, accumulating the bitmap and the
saw-any flag. -/
def parse_cron_parts (minV maxV : Nat) (allow7 : Bool) :
    List String → List Bool → Bool → Option (List Bool × Bool)
  | [], marks, sawAny => some (marks, sawAny)
  | p :: rest, marks, sawAny =>
      match parse_cron_part minV maxV allow7 marks p with
      | none => none
      | some (marks1, isAny) => parse_cron_parts minV maxV allow7 rest marks1 (sawAny || isAny)

/-- CronService::parse_cron_field: split on commas (std::getline drops a
trailing empty part), parse every part, and require at least one set bit. -/
def parse_cron_field (token : String) (minV maxV size : Nat) (allow7 : Bool) :
    Option (List Bool × Bool) :=
  let parts0 := (splitBy (fun c => c == ',') token.toList).map String.mk
  let parts := if parts0.getLast? = some "" then parts0.dropLast else parts0
  match parse_cron_parts minV maxV allow7 parts (List.replicate size false) false with
  | none => none
  | some (marks, sawAny) => if marks.any id then some (marks, sawAny) else none

/-- CronService::CronSpec. -/
structure CronSpec where
  minutes : List Bool
  hours : List Bool
  month_days : List Bool
  months : List Bool
  week_days : List Bool
  dom_any : Bool
  dow_any : Bool
  valid : Bool
deriving DecidableEq, Repr

/-- The all-false spec a failed parse leaves behind (only valid is ever read
then). -/
def invalidCronSpec : CronSpec :=
  ⟨List.replicate 60 false, List.replicate 24 false, List.replicate 32 false,
   List.replicate 13 false, List.replicate 8 false, false, false, false⟩

/-- CronService::parse_cron_expr: exactly five whitespace-separated fields
with the documented ranges; day-of-week 7 aliases 0. -/
def parse_cron_expr (expr : String) : CronSpec :=
  let fields := ((splitBy is_space_char expr.toList).map String.mk).filter (fun f => f ≠ "")
  match fields with
  | [f0, f1, f2, f3, f4] =>
      match parse_cron_field f0 0 59 60 false, parse_cron_field f1 0 23 24 false,
            parse_cron_field f2 1 31 32 false, parse_cron_field f3 1 12 13 false,
            parse_cron_field f4 0 7 8 true with
      | some (mins, _), some (hrs, _), some (doms, domAny), some (mons, _),
        some (dows, dowAny) =>
          ⟨mins, hrs, doms, mons, dows, domAny, dowAny, true⟩
      | _, _, _, _, _ => invalidCronSpec
  | _ => invalidCronSpec

/-- CronService::cron_match: minute, hour and month must match; day-of-month
and day-of-week OR-combine when both are restricted. -/
def cron_match (spec : CronSpec) (tm : Tm) : Bool :=
  let minute_ok := spec.minutes.getD tm.tm_min false
  let hour_ok := spec.hours.getD tm.tm_hour false
  let month_ok := spec.months.getD (tm.tm_mon + 1) false
  let dom_ok := spec.month_days.getD tm.tm_mday false
  let dow_ok := spec.week_days.getD tm.tm_wday false
  if !(minute_ok && hour_ok && month_ok) then false
  else if spec.dom_any && spec.dow_any then true
  else if spec.dom_any then dow_ok
  else if spec.dow_any then dom_ok
  else dom_ok || dow_ok

/-- Two years of minutes, the scan bound of compute_next_cron_run_ms. -/
def kMaxMinuteLookahead : Nat := 60 * 24 * 366 * 2

/-- The minute-stepping scan: first matching minute (in ms) within fuel
steps, else 0. -/
def scan_next (spec : CronSpec) (tmOf : Nat → Tm) : Nat → Nat → Nat
  | 0, _ => 0
  | n + 1, t => if cron_match spec (tmOf t) then t * 1000 else scan_next spec tmOf n (t + 60)

/-- CronService::compute_next_cron_run_ms: parse, then scan from the next
whole minute strictly after now.  Timestamps are nonnegative milliseconds
since the epoch, so Nat division matches the C++ int64 division. -/
def compute_next_cron_run_ms (tmOf : Nat → Tm) (expr : String) (nowMs : Nat) : Nat :=
  let spec := parse_cron_expr expr
  if spec.valid = false then 0
  else
    let nowS := nowMs / 1000
    scan_next spec tmOf kMaxMinuteLookahead (nowS + (60 - nowS % 60))

/-- CronSchedule from cron.hpp (times in nonnegative ms). -/
structure CronSchedule where
  kind : String
  at_ms : Nat
  every_ms : Nat
  expr : String
deriving DecidableEq, Repr

/-- CronPayload from cron.hpp (the source field named to is rendered
to_addr, the bare word being reserved in Lean). -/
structure CronPayload where
  kind : String
  message : String
  deliver : Bool
  channel : String
  to_addr : String
deriving DecidableEq, Repr

/-- CronJobState from cron.hpp. -/
structure CronJobState where
  next_run_at_ms : Nat
  last_run_at_ms : Nat
  last_status : String
  last_error : String
deriving DecidableEq, Repr

/-- CronJob from cron.hpp. -/
structure CronJob where
  id : String
  name : String
  enabled : Bool
  schedule : CronSchedule
  payload : CronPayload
  state : CronJobState
  created_at_ms : Nat
  updated_at_ms : Nat
  delete_after_run : Bool
deriving DecidableEq, Repr

/-- CronService::compute_next_run_ms. -/
def compute_next_run_ms (tmOf : Nat → Tm) (s : CronSchedule) (now : Nat) : Nat :=
  if s.kind = "at" then (if now < s.at_ms then s.at_ms else 0)
  else if s.kind = "every" then (if 0 < s.every_ms then now + s.every_ms else 0)
  else if s.kind = "cron" then compute_next_cron_run_ms tmOf s.expr now
  else 0

/-- CronService::execute_job as a state transition on the job.  The on_job
callback outcome enters as runOk/errMsg; startT, endT and rearmT are the
three now_ms() reads (run start, post-run update, re-arm base), in that
order. -/
def execute_job (tmOf : Nat → Tm) (job : CronJob) (runOk : Bool) (errMsg : String)
    (startT endT rearmT : Nat) : CronJob :=
  let st0 :=
    if runOk then { job.state with last_status := "ok", last_error := "" }
    else { job.state with last_status := "error", last_error := errMsg }
  let j1 := { job with state := { st0 with last_run_at_ms := startT }, updated_at_ms := endT }
  if job.schedule.kind = "at" then
    if job.delete_after_run then j1
    else { j1 with enabled := false, state := { j1.state with next_run_at_ms := 0 } }
  else
    { j1 with state :=
        { j1.state with next_run_at_ms := compute_next_run_ms tmOf job.schedule rearmT } }

/-- Due test in the run loop: enabled, armed, and due at now. -/
def cron_due (now : Nat) (j : CronJob) : Prop :=
  j.enabled = true ∧ 0 < j.state.next_run_at_ms ∧ j.state.next_run_at_ms ≤ now

instance (now : Nat) (j : CronJob) : Decidable (cron_due now j) := by
  unfold cron_due; infer_instance

/-- Removal test applied after the firing pass of the run loop. -/
def cron_reaped (j : CronJob) : Bool :=
  (j.schedule.kind == "at") && j.delete_after_run && (j.state.last_status == "ok")

/-- The locked section of CronService::run_loop once a due time passed: fire
every due job, then erase at-kind delete_after_run jobs whose last status is
ok.  The per-job now_ms() reads are the runOk/errMsg/startT/endT/rearmT
functions. -/
def run_loop_tick (tmOf : Nat → Tm) (now : Nat) (runOk : CronJob → Bool)
    (errMsg : CronJob → String) (startT endT rearmT : CronJob → Nat)
    (jobs : List CronJob) : List CronJob :=
  let fired := jobs.map (fun j =>
    if cron_due now j then
      execute_job tmOf j (runOk j) (errMsg j) (startT j) (endT j) (rearmT j)
    else j)
  fired.filter (fun j => !cron_reaped j)

/-- CronService::run_job_now on the job list: execute the first job with the
id unless it is disabled and force is off. -/
def run_job_now_list (tmOf : Nat → Tm) (id : String) (force : Bool) (runOk : Bool)
    (errMsg : String) (startT endT rearmT : Nat) : List CronJob → Bool × List CronJob
  | [] => (false, [])
  | j :: rest =>
      if j.id = id then
        if ¬force ∧ j.enabled = false then (false, j :: rest)
        else (true, execute_job tmOf j runOk errMsg startT endT rearmT :: rest)
      else
        let r := run_job_now_list tmOf id force runOk errMsg startT endT rearmT rest
        (r.1, j :: r.2)

/-- CronService::enable_job on the job list: set the flag on the first job
with the id, re-arming or zeroing next_run_at_ms. -/
def enable_job_list (tmOf : Nat → Tm) (id : String) (enabled : Bool) (now : Nat) :
    List CronJob → List CronJob
  | [] => []
  | j :: rest =>
      if j.id = id then
        { j with
            enabled := enabled,
            updated_at_ms := now,
            state := { j.state with
                next_run_at_ms := if enabled then compute_next_run_ms tmOf j.schedule now else 0 } }
          :: rest
      else j :: enable_job_list tmOf id enabled now rest

/-- A small concrete registry used by witnesses: an echo tool with one
required string parameter and a tool that always throws. -/
def demo_echo_tool : ToolImpl :=
  { name := "echo",
    parameters := .obj [("type", .s "object"),
                        ("properties", .obj [("text", .obj [("type", .s "string")])]),
                        ("required", .arr [.s "text"])],
    exec := fun p => .ok (p.valueS "text" "") }

/-- Witness tool whose execution always throws. -/
def demo_fail_tool : ToolImpl :=
  { name := "boom", parameters := .obj [("type", .s "object")], exec := fun _ => .error "kaput" }

/-- Witness registry. -/
def demo_registry : List ToolImpl := [demo_echo_tool, demo_fail_tool]

/-- C1: ToolRegistry::execute follows the three-stage protocol on every input:
unknown tool yields the not-found string; a tool with a non-empty validation
error list yields the invalid-parameters string joined with semicolons; an
ok execution returns the tool's result verbatim; a throwing execution yields
the error-executing string.  The embedded execute is a total function, which
is the no-exception guarantee. -/
theorem tool_registry_execute_protocol (tools : List ToolImpl) (name : String) (params : Json) :
    (registry_find tools name = none →
      ToolRegistry.execute tools name params = "Error: Tool '" ++ name ++ "' not found") ∧
    (∀ t, registry_find tools name = some t → t.validate params ≠ [] →
      ToolRegistry.execute tools name params =
        "Error: Invalid parameters for tool '" ++ name ++ "': "
          ++ String.intercalate "; " (t.validate params)) ∧
    (∀ t r, registry_find tools name = some t → t.validate params = [] → t.exec params = .ok r →
      ToolRegistry.execute tools name params = r) ∧
    (∀ t e, registry_find tools name = some t → t.validate params = [] →
      t.exec params = .error e →
      ToolRegistry.execute tools name params = "Error executing " ++ name ++ ": " ++ e) := by
  refine ⟨?_, ?_, ?_, ?_⟩
  · intro h
    simp [ToolRegistry.execute, h]
  · intro t ht hv
    simp [ToolRegistry.execute, ht, hv]
  · intro t r ht hv hx
    simp [ToolRegistry.execute, ht, hv, hx]
  · intro t e ht hv hx
    simp [ToolRegistry.execute, ht, hv, hx]

/-- Witness for C1: each protocol stage observed on the demo registry. -/
theorem tool_registry_execute_protocol_witness :
    ToolRegistry.execute demo_registry "nope" (.obj []) = "Error: Tool 'nope' not found" ∧
    ToolRegistry.execute demo_registry "echo" (.obj [])
      = "Error: Invalid parameters for tool 'echo': missing required parameter.text" ∧
    ToolRegistry.execute demo_registry "echo" (.obj [("text", .s "hi")]) = "hi" ∧
    ToolRegistry.execute demo_registry "boom" (.obj [])
      = "Error executing boom: kaput" := by
  refine ⟨?_, ?_, ?_, ?_⟩
  · exact (tool_registry_execute_protocol demo_registry "nope" (.obj [])).1 rfl
  · exact ((tool_registry_execute_protocol demo_registry "echo" (.obj [])).2.1
      demo_echo_tool rfl (by decide)).trans (by rfl)
  · exact (tool_registry_execute_protocol demo_registry "echo"
      (.obj [("text", .s "hi")])).2.2.1 demo_echo_tool "hi" rfl (by decide) rfl
  · exact (tool_registry_execute_protocol demo_registry "boom" (.obj [])).2.2.2
      demo_fail_tool "kaput" rfl (by decide) rfl

/-- Stripping minimum/maximum does not move any other key. -/
theorem stripMinMaxFields_lookup (fs : List (String × Json)) (k : String)
    (h1 : k ≠ "minimum") (h2 : k ≠ "maximum") (h3 : k ≠ "properties") (h4 : k ≠ "items") :
    (stripMinMaxFields fs).lookup k = fs.lookup k := by
  induction fs with
  | nil => rfl
  | cons kv rest ih =>
      obtain ⟨k', v⟩ := kv
      simp only [stripMinMaxFields]
      split_ifs with hmm hp hi
      · have hne : (k == k') = false := by
          rcases hmm with h | h <;> subst h <;> simp [h1, h2]
        simp [List.lookup, hne, ih]
      · subst hp
        have hne : (k == "properties") = false := by simp [h3]
        simp [List.lookup, hne, ih]
      · subst hi
        have hne : (k == "items") = false := by simp [h4]
        simp [List.lookup, hne, ih]
      · by_cases hk : k = k'
        · subst hk; simp [List.lookup]
        · have hne : (k == k') = false := by simp [hk]
          simp [List.lookup, hne, ih]

/-- The properties entry survives the strip with its sub-schemas stripped. -/
theorem stripMinMaxFields_lookup_props (fs : List (String × Json)) :
    (stripMinMaxFields fs).lookup "properties"
      = (fs.lookup "properties").map stripMinMaxProps := by
  induction fs with
  | nil => rfl
  | cons kv rest ih =>
      obtain ⟨k', v⟩ := kv
      simp only [stripMinMaxFields]
      split_ifs with hmm hp hi
      · have hne : ("properties" == k') = false := by
          rcases hmm with h | h <;> subst h <;> decide
      
        simp [List.lookup, hne, ih]
      · subst hp; simp [List.lookup]
      · subst hi; simp [List.lookup, ih]
      · by_cases hk : k' = "properties"
        · exact absurd hk hp
        · have hne : ("properties" == k') = false := by simp; exact fun h => hk h.symm
          simp [List.lookup, hne, ih]

/-- The items entry survives the strip with its sub-schema stripped. -/
theorem stripMinMaxFields_lookup_items (fs : List (String × Json)) :
    (stripMinMaxFields fs).lookup "items" = (fs.lookup "items").map stripMinMax := by
  induction fs with
  | nil => rfl
  | cons kv rest ih =>
      obtain ⟨k', v⟩ := kv
      simp only [stripMinMaxFields]
      split_ifs with hmm hp hi
      · have hne : ("items" == k') = false := by
          rcases hmm with h | h <;> subst h <;> decide
        simp [List.lookup, hne, ih]
      · subst hp; simp [List.lookup, ih]
      · subst hi; simp [List.lookup]
      · by_cases hk : k' = "items"
        · exact absurd hk hi
        · have hne : ("items" == k') = false := by simp; exact fun h => hk h.symm
          simp [List.lookup, hne, ih]

/-- Lookup through a stripped properties map. -/
theorem stripMinMaxPropsFields_lookup (fs : List (String × Json)) (k : String) :
    (stripMinMaxPropsFields fs).lookup k = (fs.lookup k).map stripMinMax := by
  induction fs with
  | nil => rfl
  | cons kv rest ih =>
      obtain ⟨k', v⟩ := kv
      simp only [stripMinMaxPropsFields]
      cases hk : (k == k') <;> simp [List.lookup, hk, ih]

/-- Json-level version of the lookup preservation. -/
theorem stripMinMax_find (schema : Json) (k : String)
    (h1 : k ≠ "minimum") (h2 : k ≠ "maximum") (h3 : k ≠ "properties") (h4 : k ≠ "items") :
    (stripMinMax schema).find k = schema.find k := by
  cases schema <;>
    simp [stripMinMax, Json.find, stripMinMaxFields_lookup _ _ h1 h2 h3 h4]

/-- Json-level properties preservation. -/
theorem stripMinMax_find_props (schema : Json) :
    (stripMinMax schema).find "properties" = (schema.find "properties").map stripMinMaxProps := by
  cases schema <;> simp [stripMinMax, Json.find, stripMinMaxFields_lookup_props]

/-- Json-level items preservation. -/
theorem stripMinMax_find_items (schema : Json) :
    (stripMinMax schema).find "items" = (schema.find "items").map stripMinMax := by
  cases schema <;> simp [stripMinMax, Json.find, stripMinMaxFields_lookup_items]

/-- Json-level lookup through a stripped properties map. -/
theorem stripMinMaxProps_find (props : Json) (k : String) :
    (stripMinMaxProps props).find k = (props.find k).map stripMinMax := by
  cases props <;> simp [stripMinMaxProps, Json.find, stripMinMaxPropsFields_lookup]

/-- Size-bounded form of the main strip statement, by strong induction on the
value being validated (the validator recurses along the value). -/
theorem validate_node_strip_bounded (n : Nat) :
    ∀ (value schema : Json) (label : String), sizeOf value ≤ n →
      validate_node value (stripMinMax schema) label = validate_node value schema label := by
  induction n with
  | zero =>
      intro value schema label h
      exfalso
      cases value <;> simp at h
  | succ n ih =>
      intro value schema label hsz
      have ht : (stripMinMax schema).valueS "type" "" = schema.valueS "type" "" := by
        unfold Json.valueS
        rw [stripMinMax_find schema "type" (by decide) (by decide) (by decide) (by decide)]
      have he : (stripMinMax schema).find "enum" = schema.find "enum" :=
        stripMinMax_find schema "enum" (by decide) (by decide) (by decide) (by decide)
      have hr : (stripMinMax schema).find "required" = schema.find "required" :=
        stripMinMax_find schema "required" (by decide) (by decide) (by decide) (by decide)
      have hp := stripMinMax_find_props schema
      have hi := stripMinMax_find_items schema
      have hci : (stripMinMax schema).containsKey "items" = schema.containsKey "items" := by
        unfold Json.containsKey; rw [hi]; cases schema.find "items" <;> rfl
      have hprops : ((schema.find "properties").map stripMinMaxProps).getD (.obj [])
          = stripMinMaxProps ((schema.find "properties").getD (.obj [])) := by
        cases schema.find "properties" <;> rfl
      have hfields : ∀ (fs : List (String × Json)) (props : Json) (lab : String),
          (∀ p ∈ fs, sizeOf p.2 ≤ n) →
          validate_fields fs (stripMinMaxProps props) lab = validate_fields fs props lab := by
        intro fs
        induction fs with
        | nil => intro props lab _; rfl
        | cons kv rest ihf =>
            intro props lab hm
            obtain ⟨k, v⟩ := kv
            have hv : sizeOf v ≤ n := hm (k, v) (by simp)
            simp only [validate_fields, stripMinMaxProps_find]
            cases hpf : props.find k with
            | none => simp [ihf props lab (fun p hp => hm p (List.mem_cons_of_mem _ hp))]
            | some psub =>
                simp [ih v psub (lab ++ "." ++ k) hv,
                      ihf props lab (fun p hp => hm p (List.mem_cons_of_mem _ hp))]
      have hitems : ∀ (items : List Json) (isch : Json) (lab : String) (i : Nat),
          (∀ x ∈ items, sizeOf x ≤ n) →
          validate_items items (stripMinMax isch) lab i = validate_items items isch lab i := by
        intro items
        induction items with
        | nil => intro isch lab i _; rfl
        | cons x rest ihx =>
            intro isch lab i hm
            have hx : sizeOf x ≤ n := hm x (by simp)
            simp only [validate_items]
            rw [ih x isch (lab ++ "[" ++ toString i ++ "]") hx,
                ihx isch lab (i + 1) (fun p hp => hm p (List.mem_cons_of_mem _ hp))]
      cases value with
      | obj fs =>
          have hsub : ∀ p ∈ fs, sizeOf p.2 ≤ n := by
            intro p hp
            have h1 := List.sizeOf_lt_of_mem hp
            have h2 : sizeOf p.2 < sizeOf p := by
              obtain ⟨a, b⟩ := p; simp
            simp at hsz
            omega
          rw [validate_node.eq_1, validate_node.eq_1, ht, he, hr, hci, hp, hprops,
              hfields fs ((schema.find "properties").getD (.obj [])) label hsub]
      | arr items =>
          have hsub : ∀ x ∈ items, sizeOf x ≤ n := by
            intro x hx
            have h1 := List.sizeOf_lt_of_mem hx
            simp at hsz
            omega
          cases hit : schema.find "items" with
          | some isch =>
              have hit2 : (stripMinMax schema).find "items" = some (stripMinMax isch) := by
                rw [hi, hit]; rfl
              rw [validate_node.eq_2 (stripMinMax schema) label items (stripMinMax isch) hit2,
                  validate_node.eq_2 schema label items isch hit,
                  ht, he, hr, hci, hitems items isch label 0 hsub]
          | none =>
              have hit2 : (stripMinMax schema).find "items" = none := by
                rw [hi, hit]; rfl
              rw [validate_node.eq_3 (stripMinMax schema) label (.arr items)
                    (fun fs hfs => by cases hfs)
                    (fun its isch harr hfind => by rw [hit2] at hfind; cases hfind),
                  validate_node.eq_3 schema label (.arr items)
                    (fun fs hfs => by cases hfs)
                    (fun its isch harr hfind => by rw [hit] at hfind; cases hfind),
                  ht, he, hr, hci]
      | null =>
          rw [validate_node.eq_3 (stripMinMax schema) label .null
                (fun fs hfs => by cases hfs) (fun its isch harr => by cases harr),
              validate_node.eq_3 schema label .null
                (fun fs hfs => by cases hfs) (fun its isch harr => by cases harr),
              ht, he, hr, hci]
      | b v =>
          rw [validate_node.eq_3 (stripMinMax schema) label (.b v)
                (fun fs hfs => by cases hfs) (fun its isch harr => by cases harr),
              validate_node.eq_3 schema label (.b v)
                (fun fs hfs => by cases hfs) (fun its isch harr => by cases harr),
              ht, he, hr, hci]
      | i v =>
          rw [validate_node.eq_3 (stripMinMax schema) label (.i v)
                (fun fs hfs => by cases hfs) (fun its isch harr => by cases harr),
              validate_node.eq_3 schema label (.i v)
                (fun fs hfs => by cases hfs) (fun its isch harr => by cases harr),
              ht, he, hr, hci]
      | s v =>
          rw [validate_node.eq_3 (stripMinMax schema) label (.s v)
                (fun fs hfs => by cases hfs) (fun its isch harr => by cases harr),
              validate_node.eq_3 schema label (.s v)
                (fun fs hfs => by cases hfs) (fun its isch harr => by cases harr),
              ht, he, hr, hci]

/-- C10: Tool::validate never enforces minimum or maximum: validation of any
value against any schema is unchanged when every minimum/maximum annotation
is removed from the schema; in particular the system_inspect arguments pass
validation for every integer limit, and the tool's execute clamps the limit
itself to [1, 200]. -/
theorem validate_ignores_min_max :
    (∀ (value schema : Json) (label : String),
        validate_node value (stripMinMax schema) label = validate_node value schema label) ∧
    (∀ v : Int,
        validate_node (.obj [("action", .s "processes"), ("limit", .i v)])
          system_inspect_parameters "parameter" = []) ∧
    (∀ v : Int,
        system_inspect_limit (.obj [("action", .s "processes"), ("limit", .i v)])
          = max 1 (min 200 v)) := by
  refine ⟨fun value schema label =>
    validate_node_strip_bounded (sizeOf value) value schema label le_rfl, ?_, ?_⟩
  · intro v; rfl
  · intro v; rfl

/-- C5 counterexample: stripping the interior token erases exactly the token
characters, so the two spaces around --VISION collapse into a double space
that interior trim does not touch: the prompt is "do a  task", not the
claimed "do a task" (vision is enabled as claimed). -/
theorem parse_external_request_vision_counterexample :
    (parse_external_request "do a --VISION task").prompt ≠ "do a task" ∧
    (parse_external_request "do a --VISION task").prompt = "do a  task" ∧
    (parse_external_request "do a --VISION task").vision_enabled = true := by
  refine ⟨?_, rfl, rfl⟩
  decide

/-- C5 amended: trailing --codex or --gemini (case-insensitive, whole-word)
set the external route with the suffix removed; every whole-word --vision
occurrence sets vision_enabled and is erased in place, leaving the
surrounding whitespace (only the ends are trimmed), so "do a --VISION task"
yields prompt "do a  task" with a doubled space; --visionary is left alone. -/
theorem parse_external_request_suffix_examples :
    parse_external_request "do a --VISION task" =
      ⟨"do a  task", true, none⟩ ∧
    parse_external_request "leave --visionary alone" =
      ⟨"leave --visionary alone", false, none⟩ ∧
    parse_external_request "hello --codex" =
      ⟨"hello", false, some ⟨"codex", "--codex", "hello"⟩⟩ ∧
    parse_external_request "do thing --vision --gemini" =
      ⟨"do thing", true, some ⟨"gemini", "--gemini", "do thing"⟩⟩ := by
  refine ⟨rfl, rfl, rfl, rfl⟩

/-- Poll-loop accounting: the loop pops some batch off the inbound queue and
defers exactly its non-stop envelopes, in order. -/
theorem poll_loop_spec (ac aid : String) :
    ∀ (fuel : Nat) (s : AgentSt),
      ∃ popped : List Env,
        s.inbound = popped ++ (poll_loop ac aid fuel s).inbound ∧
        (poll_loop ac aid fuel s).deferred_inbound
          = s.deferred_inbound ++ popped.filter (fun m => !is_stop_for ac aid m) := by
  intro fuel
  induction fuel with
  | zero =>
      intro s
      exact ⟨[], rfl, by simp [poll_loop]⟩
  | succ n ihn =>
      intro s
      obtain ⟨c, tk, inb, df, ob⟩ := s
      cases inb with
      | nil => exact ⟨[], by simp [poll_loop], by simp [poll_loop]⟩
      | cons m rest =>
          by_cases hstop : is_stop_for ac aid m = true
          · cases c with
            | true =>
                have hstep : poll_loop ac aid (n + 1) ⟨true, tk, m :: rest, df, ob⟩
                    = poll_loop ac aid n ⟨true, tk, rest, df, ob⟩ := by
                  simp [poll_loop, hstop]
                obtain ⟨p, hp1, hp2⟩ := ihn ⟨true, tk, rest, df, ob⟩
                simp only at hp1 hp2
                refine ⟨m :: p, ?_, ?_⟩
                · simp only [hstep, List.cons_append]
                  exact congrArg (m :: ·) hp1
                · simp only [hstep, List.filter_cons, hstop]
                  simpa using hp2
            | false =>
                have hstep : poll_loop ac aid (n + 1) ⟨false, tk, m :: rest, df, ob⟩
                    = poll_loop ac aid n
                        ⟨true, tk, rest, df, ob ++ [⟨ac, aid, "Stopping current task..."⟩]⟩ := by
                  simp [poll_loop, hstop]
                obtain ⟨p, hp1, hp2⟩ :=
                  ihn ⟨true, tk, rest, df, ob ++ [⟨ac, aid, "Stopping current task..."⟩]⟩
                simp only at hp1 hp2
                refine ⟨m :: p, ?_, ?_⟩
                · simp only [hstep, List.cons_append]
                  exact congrArg (m :: ·) hp1
                · simp only [hstep, List.filter_cons, hstop]
                  simpa using hp2
          · have hstop2 : is_stop_for ac aid m = false := by
              cases h : is_stop_for ac aid m
              · rfl
              · exact absurd h hstop
            have hstep : poll_loop ac aid (n + 1) ⟨c, tk, m :: rest, df, ob⟩
                = poll_loop ac aid n ⟨c, tk, rest, df ++ [m], ob⟩ := by
              simp [poll_loop, hstop2]
            obtain ⟨p, hp1, hp2⟩ := ihn ⟨c, tk, rest, df ++ [m], ob⟩
            simp only at hp1 hp2
            refine ⟨m :: p, ?_, ?_⟩
            · simp only [hstep, List.cons_append]
              exact congrArg (m :: ·) hp1
            · simp only [hstep, List.filter_cons, hstop2]
              simp only [hp2, List.append_assoc]
              rfl

/-- C2: every envelope the stop poll pops that is not a /stop for the active
session lands on the deferred queue (in pop order, nothing dropped), and the
run scope republishes the whole deferred queue to the inbound queue on every
exit path, normal or exceptional, leaving the deferred queue empty. -/
theorem deferred_envelopes_preserved :
    (∀ (ac aid : String) (s : AgentSt),
        ∃ popped : List Env,
          s.inbound = popped ++ (poll_for_stop_signal ac aid s).2.inbound ∧
          (poll_for_stop_signal ac aid s).2.deferred_inbound
            = s.deferred_inbound ++ popped.filter (fun m => !is_stop_for ac aid m)) ∧
    (∀ (A : Type) (body : AgentSt → Except String A × AgentSt) (s : AgentSt),
        (run_scope body s).2.deferred_inbound = [] ∧
        (run_scope body s).2.inbound
          = (body (scope_enter s)).2.inbound ++ (body (scope_enter s)).2.deferred_inbound) := by
  constructor
  · intro ac aid s
    by_cases hc : s.cancel_requested = true
    · exact ⟨[], by simp [poll_for_stop_signal, hc], by simp [poll_for_stop_signal, hc]⟩
    · obtain ⟨p, hp1, hp2⟩ := poll_loop_spec ac aid 8 s
      exact ⟨p, by simpa [poll_for_stop_signal, hc] using hp1,
             by simpa [poll_for_stop_signal, hc] using hp2⟩
  · intro A body s
    exact ⟨rfl, rfl⟩

/-- C4 counterexample: for the announcement "done" addressed to telegram:42,
the user-role message handed to the LLM is the raw content "done" (the
"[System] " prefix goes only to the session record), refuting the claim that
the LLM sees the prefixed content.  The outbound envelope is addressed to
the parsed origin as claimed. -/
theorem system_message_prompt_counterexample :
    (process_system_message (fun _ => "ok") "sys" []
        ⟨"system", "subagent", "telegram:42", "done"⟩).initial.getLast?
      = some ⟨"user", "done"⟩ ∧
    (some (⟨"user", "done"⟩ : ChatMsg) ≠ some ⟨"user", "[System] done"⟩) ∧
    (process_system_message (fun _ => "ok") "sys" []
        ⟨"system", "subagent", "telegram:42", "done"⟩).out = ⟨"telegram", "42", "ok"⟩ := by
  refine ⟨rfl, ?_, rfl⟩
  decide

/-- C4 amended: a system envelope whose content is not the stop sentinel runs
a full turn whose LLM user-role message is the raw announcement content; the
"[System] " prefix is applied to the user row recorded in the session; and
the outbound envelope is addressed to the origin channel and chat id parsed
from the envelope chat_id at its first colon. -/
theorem system_message_announcement (turn : List ChatMsg → String) (sys : String)
    (history : List ChatMsg) (msg : Env)
    (hch : msg.channel = "system") (hns : msg.content ≠ "stop") :
    ∃ r, process_message_system_branch turn sys history msg = some r ∧
      r.initial = build_messages sys history msg.content
        (split_origin msg.chat_id).1 (split_origin msg.chat_id).2 ∧
      r.initial.getLast? = some ⟨"user", msg.content⟩ ∧
      r.out = ⟨(split_origin msg.chat_id).1, (split_origin msg.chat_id).2, turn r.initial⟩ ∧
      r.recorded_user = "[System] " ++ msg.content ∧
      r.recorded_assistant = turn r.initial := by
  refine ⟨process_system_message turn sys history msg, ?_, rfl, ?_, rfl, rfl, rfl⟩
  · unfold process_message_system_branch
    rw [if_neg (fun h => hns h.2), if_pos hch]
  · show (⟨"system", _⟩ :: (history ++ [⟨"user", msg.content⟩]) : List ChatMsg).getLast?
        = some ⟨"user", msg.content⟩
    rw [← List.cons_append, List.getLast?_concat]

/-- Witness for C4 amended at a concrete announcement. -/
theorem system_message_announcement_witness :
    ∃ r, process_message_system_branch (fun _ => "ok") "sys" []
        ⟨"system", "subagent", "telegram:42", "done"⟩ = some r ∧
      r.initial = build_messages "sys" [] "done"
        (split_origin "telegram:42").1 (split_origin "telegram:42").2 ∧
      r.initial.getLast? = some ⟨"user", "done"⟩ ∧
      r.out = ⟨(split_origin "telegram:42").1, (split_origin "telegram:42").2,
               (fun (_ : List ChatMsg) => "ok") r.initial⟩ ∧
      r.recorded_user = "[System] " ++ "done" ∧
      r.recorded_assistant = (fun (_ : List ChatMsg) => "ok") r.initial :=
  system_message_announcement (fun _ => "ok") "sys" []
    ⟨"system", "subagent", "telegram:42", "done"⟩ rfl (by decide)

/-- In every reachable session the consolidation index is either fresh (0) or
leaves at least the keep window ahead of it. -/
theorem reachable_session_invariant (mw : Nat) (s : Session) (h : ReachableSession mw s) :
    s.last_consolidated = 0 ∨
      s.last_consolidated + max 1 (mw / 2) ≤ s.messages.length := by
  induction h with
  | init key created updated => left; rfl
  | add s role content now tools h ih =>
      rcases ih with h0 | hle
      · left; exact h0
      · right; simp only [Session.add_message, List.length_append, List.length_cons,
          List.length_nil]; omega
  | clearOp s now h ih => left; rfl
  | consolidateOp s h htrig ih =>
      unfold consolidate_memory
      simp only [Bool.false_eq_true, if_false]
      split_ifs with h1 h2
      · exact ih
      · exact ih
      · right
        simp only []
        omega

/-- C8: in any reachable session that exceeds the memory window (window at
least 2), consolidation archives exactly the slice from last_consolidated up
to length - window/2, advances last_consolidated to that bound, leaves the
message list untouched, and preserves the index invariant. -/
theorem consolidate_memory_spec (mw : Nat) (s : Session)
    (hreach : ReachableSession mw s) (hmw : 2 ≤ mw) (hlen : mw < s.messages.length) :
    (consolidate_memory mw false s).2
      = (s.messages.drop s.last_consolidated).take
          (s.messages.length - mw / 2 - s.last_consolidated) ∧
    (consolidate_memory mw false s).1.last_consolidated = s.messages.length - mw / 2 ∧
    (consolidate_memory mw false s).1.messages = s.messages ∧
    (consolidate_memory mw false s).1.last_consolidated
      ≤ (consolidate_memory mw false s).1.messages.length := by
  have hkeep : max 1 (mw / 2) = mw / 2 := by omega
  have hinv := reachable_session_invariant mw s hreach
  rw [hkeep] at hinv
  have hhalf : mw / 2 ≤ mw := Nat.div_le_self mw 2
  have hlc : s.last_consolidated ≤ s.messages.length - mw / 2 := by
    rcases hinv with h0 | hle <;> omega
  unfold consolidate_memory
  simp only [Bool.false_eq_true, if_false]
  rw [hkeep]
  split_ifs with h1 h2
  · omega
  · rcases h2 with hge | hover
    · have heq : s.last_consolidated = s.messages.length - mw / 2 := by omega
      refine ⟨?_, ?_, rfl, ?_⟩
      · simp [heq]
      · simpa using heq
      · simp only []
        omega
  
    · omega
  · refine ⟨rfl, rfl, rfl, ?_⟩
    simp only []
    omega

/-- Witness for C8: a window-2 session with three messages consolidates its
first two messages and advances the index to 2. -/
theorem consolidate_memory_spec_witness :
    (consolidate_memory 2 false
        ((((⟨"k", [], "c", "u", 0⟩ : Session).add_message "user" "a" "t" []).add_message
            "assistant" "b" "t" []).add_message "user" "c" "t" [])).1.last_consolidated = 2 := by
  have h := consolidate_memory_spec 2
    ((((⟨"k", [], "c", "u", 0⟩ : Session).add_message "user" "a" "t" []).add_message
        "assistant" "b" "t" []).add_message "user" "c" "t" [])
    (ReachableSession.add _ _ _ _ _
      (ReachableSession.add _ _ _ _ _
        (ReachableSession.add _ _ _ _ _ (ReachableSession.init "k" "c" "u"))))
    (by omega) (by decide)
  simpa using h.2.1

/-- Loading the message rows save emits appends exactly those messages. -/
theorem load_rows_map_messages (now : String) (msgs : List SessionMessage) :
    ∀ acc : Session,
      load_rows now
        (msgs.map (fun m =>
          (⟨none, none, none, none, some m.role, some m.content, some m.timestamp,
            if m.tools_used = [] then none else some m.tools_used⟩ : JRow)))
        false acc
      = { acc with messages := acc.messages ++ msgs } := by
  induction msgs with
  | nil => intro acc; simp [load_rows]
  | cons m rest ihm =>
      intro acc
      have hdec : (if m.tools_used = [] then none else some m.tools_used).getD []
          = m.tools_used := by
        by_cases htool : m.tools_used = [] <;> simp [htool]
      simp only [List.map_cons, load_rows, Option.getD_some, hdec, Bool.false_eq_true,
        false_and, if_false]
      rw [ihm]
      simp [List.append_assoc]

/-- C9: saving a session and loading the written rows under the same key
reproduces the session exactly: key, message sequence with roles, contents,
timestamps and tools_used, last_consolidated, created_at and updated_at. -/
theorem session_save_load_roundtrip (now : String) (s : Session) :
    SessionManager.load s.key now (SessionManager.save s) = s := by
  unfold SessionManager.save SessionManager.load
  simp only [emptyRow, load_rows, Option.getD_some]
  rw [if_pos ⟨trivial, trivial⟩]
  rw [load_rows_map_messages]
  simp

/-- C3 counterexample: cron run-now with force=true on a disabled every-kind
job executes it and re-arms next_run_at_ms to rearm-time + every_ms while
enabled stays false, violating the claimed always-invariant
(enabled=false implies next_run_at_ms=0). -/
theorem cron_force_run_breaks_disabled_invariant :
    (run_job_now_list (fun _ => ⟨0, 0, 1, 0, 4⟩) "j1" true true "" 500 900 1000
        [⟨"j1", "demo", false, ⟨"every", 0, 60000, ""⟩, ⟨"agent_turn", "m", false, "", ""⟩,
          ⟨0, 0, "", ""⟩, 0, 0, false⟩]).1 = true ∧
    ((run_job_now_list (fun _ => ⟨0, 0, 1, 0, 4⟩) "j1" true true "" 500 900 1000
        [⟨"j1", "demo", false, ⟨"every", 0, 60000, ""⟩, ⟨"agent_turn", "m", false, "", ""⟩,
          ⟨0, 0, "", ""⟩, 0, 0, false⟩]).2.head?).map
        (fun j => (j.enabled, j.state.next_run_at_ms)) = some (false, 61000) :=
  ⟨rfl, rfl⟩

/-- C3 amended: on a scheduler pass, a due at-kind delete_after_run job whose
run succeeded is reaped from the list; a due at-kind job without
delete_after_run is disabled with next_run_at_ms=0; a due recurring job
re-arms from the post-run time; the pass and enable_job preserve the
invariant enabled=false implies next_run_at_ms=0.  A forced run-now of a
disabled recurring job is the one operation that breaks the invariant (see
the counterexample). -/
theorem cron_job_transitions (tmOf : Nat → Tm) (now : Nat) (runOk : CronJob → Bool)
    (errMsg : CronJob → String) (startT endT rearmT : CronJob → Nat) (jobs : List CronJob)
    (hinv : ∀ j ∈ jobs, j.enabled = false → j.state.next_run_at_ms = 0) :
    (∀ j ∈ jobs, cron_due now j → j.schedule.kind = "at" → j.delete_after_run = true →
        runOk j = true →
        cron_reaped (execute_job tmOf j (runOk j) (errMsg j) (startT j) (endT j) (rearmT j))
          = true) ∧
    (∀ j ∈ jobs, cron_due now j → j.schedule.kind = "at" → j.delete_after_run = false →
        (execute_job tmOf j (runOk j) (errMsg j) (startT j) (endT j) (rearmT j)).enabled
            = false ∧
        (execute_job tmOf j (runOk j) (errMsg j) (startT j) (endT j)
            (rearmT j)).state.next_run_at_ms = 0) ∧
    (∀ j ∈ jobs, cron_due now j → j.schedule.kind ≠ "at" →
        (execute_job tmOf j (runOk j) (errMsg j) (startT j) (endT j)
            (rearmT j)).state.next_run_at_ms
          = compute_next_run_ms tmOf j.schedule (rearmT j)) ∧
    (∀ j' ∈ run_loop_tick tmOf now runOk errMsg startT endT rearmT jobs,
        j'.enabled = false → j'.state.next_run_at_ms = 0) ∧
    (∀ (id : String) (now2 : Nat) (en : Bool),
        ∀ j' ∈ enable_job_list tmOf id en now2 jobs,
          j'.enabled = false → j'.state.next_run_at_ms = 0) := by
  refine ⟨?_, ?_, ?_, ?_, ?_⟩
  · intro j _ _ hat hdar hok
    simp [execute_job, cron_reaped, hat, hdar, hok]
  · intro j _ _ hat hdar
    simp [execute_job, hat, hdar]
  · intro j _ _ hat
    simp [execute_job, hat]
  · intro j' hj'
    simp only [run_loop_tick, List.mem_filter, List.mem_map] at hj'
    obtain ⟨⟨j, hjmem, hstep⟩, _⟩ := hj'
    subst hstep
    by_cases hdue : cron_due now j
    · rw [if_pos hdue]
      intro hen
      by_cases hat : j.schedule.kind = "at"
      · by_cases hdar : j.delete_after_run = true
        · exfalso
          have : (execute_job tmOf j (runOk j) (errMsg j) (startT j) (endT j)
              (rearmT j)).enabled = true := by
            simp [execute_job, hat, hdar, hdue.1]
          rw [hen] at this
          cases this
        · simp [execute_job, hat, hdar]
      · exfalso
        have : (execute_job tmOf j (runOk j) (errMsg j) (startT j) (endT j)
            (rearmT j)).enabled = true := by
          simp [execute_job, hat, hdue.1]
        rw [hen] at this
        cases this
    · rw [if_neg hdue]
      exact hinv j hjmem
  · intro id now2 en
    induction jobs with
    | nil => intro j' hj'; cases hj'
    | cons j rest ih =>
        have hinvrest : ∀ jj ∈ rest, jj.enabled = false → jj.state.next_run_at_ms = 0 :=
          fun jj hm => hinv jj (List.mem_cons_of_mem _ hm)
        intro j' hj'
        simp only [enable_job_list] at hj'
        by_cases hid : j.id = id
        · rw [if_pos hid] at hj'
          rcases List.mem_cons.mp hj' with heq | hmem
          · subst heq
            intro hen
            simp only at hen
            simp [hen]
          · exact hinvrest j' hmem
        · rw [if_neg hid] at hj'
          rcases List.mem_cons.mp hj' with heq | hmem
          · subst heq
            exact hinv j' (List.mem_cons_self _ _)
          · exact ih hinvrest j' hmem

/-- Witness for C3 amended: a due at-kind job without delete_after_run is
disabled with a zeroed next_run_at_ms by the scheduler pass. -/
theorem cron_job_transitions_witness :
    ((run_loop_tick (fun _ => ⟨0, 0, 1, 0, 4⟩) 5000 (fun _ => true) (fun _ => "")
        (fun _ => 500) (fun _ => 900) (fun _ => 1000)
        [⟨"j2", "demo", true, ⟨"at", 1000, 0, ""⟩, ⟨"agent_turn", "m", false, "", ""⟩,
          ⟨1000, 0, "", ""⟩, 0, 0, false⟩]).getD 0
      ⟨"x", "x", true, ⟨"at", 0, 0, ""⟩, ⟨"agent_turn", "", false, "", ""⟩,
        ⟨1, 0, "", ""⟩, 0, 0, false⟩).state.next_run_at_ms = 0 := by
  have h := (cron_job_transitions (fun _ => ⟨0, 0, 1, 0, 4⟩) 5000 (fun _ => true) (fun _ => "")
      (fun _ => 500) (fun _ => 900) (fun _ => 1000)
      [⟨"j2", "demo", true, ⟨"at", 1000, 0, ""⟩, ⟨"agent_turn", "m", false, "", ""⟩,
        ⟨1000, 0, "", ""⟩, 0, 0, false⟩]
      (by decide)).2.2.2.1
  exact h _ (by decide) (by decide)

/-- A nonzero scan result is the first matching minute at or after the start
of the scan. -/
theorem scan_next_spec (spec : CronSpec) (tmOf : Nat → Tm) :
    ∀ (n t F : Nat), scan_next spec tmOf n t = F → F ≠ 0 →
      ∃ k, k < n ∧ F = (t + 60 * k) * 1000 ∧
        cron_match spec (tmOf (t + 60 * k)) = true ∧
        ∀ j, j < k → cron_match spec (tmOf (t + 60 * j)) = false := by
  intro n
  induction n with
  | zero =>
      intro t F h hF
      exact absurd h.symm hF
  | succ n ih =>
      intro t F h hF
      simp only [scan_next] at h
      cases hm : cron_match spec (tmOf t) with
      | true =>
          rw [hm, if_pos rfl] at h
          exact ⟨0, Nat.succ_pos n, by omega, by simpa using hm, fun j hj => by omega⟩
      | false =>
          rw [hm] at h
          simp only [Bool.false_eq_true, if_false] at h
          obtain ⟨k, hk, hFeq, hmatch, hmin⟩ := ih (t + 60) F h hF
          refine ⟨k + 1, by omega, by omega, ?_, ?_⟩
          · have : t + 60 + 60 * k = t + 60 * (k + 1) := by omega
            rw [this] at hmatch
            exact hmatch
          · intro j hj
            cases j with
            | zero => simpa using hm
            | succ j =>
                have := hmin j (by omega)
                have heq : t + 60 + 60 * j = t + 60 * (j + 1) := by omega
                rw [heq] at this
                exact this

/-- A scan over minutes none of which match returns 0. -/
theorem scan_next_none (spec : CronSpec) (tmOf : Nat → Tm)
    (hall : ∀ t', cron_match spec (tmOf t') = false) :
    ∀ (n t : Nat), scan_next spec tmOf n t = 0 := by
  intro n
  induction n with
  | zero => intro t; rfl
  | succ n ih =>
      intro t
      simp only [scan_next, hall t, Bool.false_eq_true, if_false]
      exact ih (t + 60)

/-- The fuel-driven year walk ends inside the reached year whenever the fuel
exceeds the day count. -/
theorem yearFromFuel_snd_lt : ∀ (fuel y d : Nat), d < fuel →
    (yearFromFuel fuel y d).2 < daysInYear (yearFromFuel fuel y d).1 := by
  intro fuel
  induction fuel with
  | zero => intro y d h; omega
  | succ fuel ih =>
      intro y d h
      have h365 : 365 ≤ daysInYear y := by unfold daysInYear; split <;> omega
      simp only [yearFromFuel]
      split_ifs with hy
      · exact ih (y + 1) (d - daysInYear y) (by omega)
      · simpa using by omega

/-- The year walk ends inside the reached year. -/
theorem yearFrom_snd_lt : ∀ (d y : Nat), (yearFrom y d).2 < daysInYear (yearFrom y d).1 := by
  intro d y
  exact yearFromFuel_snd_lt (d + 1) y d (by omega)

/-- The month walk lands on a month of the list with the day offset below
that month's length. -/
theorem monthFrom_spec : ∀ (ms : List Nat) (m d : Nat), d < ms.sum →
    ∃ j, j < ms.length ∧ (monthFrom ms m d).1 = m + j ∧ (monthFrom ms m d).2 < ms.getD j 0 := by
  intro ms
  induction ms with
  | nil => intro m d h; simp at h
  | cons len rest ih =>
      intro m d h
      simp only [monthFrom]
      split_ifs with hd
      · exact ⟨0, by simp, by simp, by simpa using hd⟩
      · have h2 : d - len < rest.sum := by
          simp only [List.sum_cons] at h
          omega
        obtain ⟨j, hj1, hj2, hj3⟩ := ih (m + 1) (d - len) h2
        refine ⟨j + 1, by simpa using hj1, by rw [hj2]; omega, by simpa using hj3⟩

/-- The month table sums to the year length. -/
theorem monthLengths_sum (leap : Bool) : (monthLengths leap).sum = if leap then 366 else 365 := by
  cases leap <;> rfl

/-- February never reaches day 30: the UTC civil conversion cannot produce
month 2 with day-of-month above 29. -/
theorem utcTm_feb_day_le (t : Nat) (hmon : (utcTm t).tm_mon = 1) :
    (utcTm t).tm_mday ≤ 29 := by
  unfold utcTm civilFromDays at hmon ⊢
  simp only at hmon ⊢
  have h1 := yearFrom_snd_lt (t / 86400) 1970
  have hsum : (yearFrom 1970 (t / 86400)).2
      < (monthLengths (isLeap (yearFrom 1970 (t / 86400)).1)).sum := by
    rw [monthLengths_sum]
    unfold daysInYear at h1
    exact h1
  obtain ⟨j, hj1, hj2, hj3⟩ := monthFrom_spec (monthLengths (isLeap (yearFrom 1970 (t / 86400)).1))
    1 (yearFrom 1970 (t / 86400)).2 hsum
  rw [hj2] at hmon
  have hj : j = 1 := by omega
  subst hj
  have hlen : (monthLengths (isLeap (yearFrom 1970 (t / 86400)).1)).getD 1 0 ≤ 29 := by
    unfold monthLengths
    split <;> simp
  omega

/-- Every minute fails the Feb-31 specification: its day-of-month field only
holds 31 and its month field only holds February, a combination the calendar
never produces. -/
theorem spec231_no_match (t : Nat) :
    cron_match (parse_cron_expr "0 0 31 2 *") (utcTm t) = false := by
  have hmonth : ∀ i, (parse_cron_expr "0 0 31 2 *").months.getD i false = true → i = 2 := by
    intro i h
    by_cases hi : i < 13
    · interval_cases i <;> revert h <;> decide
    · rw [List.getD_eq_default] at h
      · cases h
      · have : (parse_cron_expr "0 0 31 2 *").months.length = 13 := by decide
        omega
  have hdom : ∀ i, (parse_cron_expr "0 0 31 2 *").month_days.getD i false = true → i = 31 := by
    intro i h
    by_cases hi : i < 32
    · interval_cases i <;> revert h <;> decide
    · rw [List.getD_eq_default] at h
      · cases h
      · have : (parse_cron_expr "0 0 31 2 *").month_days.length = 32 := by decide
        omega
  cases hres : cron_match (parse_cron_expr "0 0 31 2 *") (utcTm t) with
  | false => rfl
  | true =>
      exfalso
      have hda : (parse_cron_expr "0 0 31 2 *").dom_any = false := by decide
      have hwa : (parse_cron_expr "0 0 31 2 *").dow_any = true := by decide
      unfold cron_match at hres
      rw [hda, hwa] at hres
      cases hmok : (parse_cron_expr "0 0 31 2 *").months.getD ((utcTm t).tm_mon + 1) false with
      | false =>
          rw [hmok] at hres
          simp at hres
      | true =>
          rw [hmok] at hres
          cases hdomv : (parse_cron_expr "0 0 31 2 *").month_days.getD (utcTm t).tm_mday false with
          | false =>
              rw [hdomv] at hres
              simp at hres
          | true =>
              have hmon : (utcTm t).tm_mon = 1 := by
                have := hmonth _ hmok
                omega
              have hday : (utcTm t).tm_mday = 31 := hdom _ hdomv
              have := utcTm_feb_day_le t hmon
              omega

/-- C6 counterexample: "0 0 31 2 *" (February 31st) parses as a valid
expression, yet no minute ever matches it, so the two-year bounded scan
returns 0 rather than a time F with F greater than T that matches. -/
theorem cron_next_fire_counterexample :
    (parse_cron_expr "0 0 31 2 *").valid = true ∧
    compute_next_cron_run_ms utcTm "0 0 31 2 *" 0 = 0 := by
  refine ⟨by decide, ?_⟩
  unfold compute_next_cron_run_ms
  rw [if_neg (by decide)]
  exact scan_next_none _ _ spec231_no_match _ _

/-- C6 amended: for a valid expression, whenever the bounded minute scan
returns a nonzero F, that F is a whole minute strictly after T that matches
the expression, and no whole minute strictly between T and F matches; an
expression with no matching minute within the two-year lookahead yields 0
instead. -/
theorem cron_next_fire_sound (tmOf : Nat → Tm) (expr : String) (nowMs F : Nat)
    (hvalid : (parse_cron_expr expr).valid = true)
    (hF : compute_next_cron_run_ms tmOf expr nowMs = F) (hnz : F ≠ 0) :
    nowMs < F ∧ F % 60000 = 0 ∧
    cron_match (parse_cron_expr expr) (tmOf (F / 1000)) = true ∧
    (∀ m : Nat, nowMs < m * 60000 → m * 60000 < F →
        cron_match (parse_cron_expr expr) (tmOf (m * 60)) = false) := by
  unfold compute_next_cron_run_ms at hF
  rw [if_neg (by rw [hvalid]; exact fun h => by cases h)] at hF
  obtain ⟨k, hk, hFeq, hmatch, hmin⟩ := scan_next_spec _ tmOf _ _ F hF hnz
  have hdiv : F / 1000 = nowMs / 1000 + (60 - nowMs / 1000 % 60) + 60 * k := by omega
  refine ⟨by omega, by omega, by rw [hdiv]; exact hmatch, ?_⟩
  intro m hm1 hm2
  have ht0 : nowMs / 1000 + (60 - nowMs / 1000 % 60) ≤ m * 60 := by omega
  have hj : m * 60 = nowMs / 1000 + (60 - nowMs / 1000 % 60)
      + 60 * ((m * 60 - (nowMs / 1000 + (60 - nowMs / 1000 % 60))) / 60) := by omega
  have hjk : (m * 60 - (nowMs / 1000 + (60 - nowMs / 1000 % 60))) / 60 < k := by omega
  rw [hj]
  exact hmin _ hjk

/-- Witness for C6 amended: the every-minute expression fires strictly after
time 0. -/
theorem cron_next_fire_sound_witness :
    0 < compute_next_cron_run_ms utcTm "* * * * *" 0 :=
  (cron_next_fire_sound utcTm "* * * * *" 0
    (compute_next_cron_run_ms utcTm "* * * * *" 0) (by decide) rfl (by decide)).1

/-- Ring positions within one window of length C have distinct slots. -/
theorem window_mod_inj {C : Nat} {d p q : Nat}
    (hp1 : d ≤ p) (hp2 : p < d + C) (hq1 : d ≤ q) (hq2 : q < d + C)
    (h : p % C = q % C) : p = q := by
  rcases Nat.le_total p q with hle | hle
  · have hdvd : C ∣ q - p := (Nat.modEq_iff_dvd' hle).mp h
    have hz : q - p = 0 := Nat.eq_zero_of_dvd_of_lt hdvd (by omega)
    omega
  · have hdvd : C ∣ p - q := (Nat.modEq_iff_dvd' hle).mp h.symm
    have hz : p - q = 0 := Nat.eq_zero_of_dvd_of_lt hdvd (by omega)
    omega

/-- Reading back the slot just written. -/
theorem cellAt_set_self {α : Type} (cs : List (QCell α)) (e d i : Nat) (c : QCell α)
    (hi : i < cs.length) : cellAt ⟨cs.set i c, e, d⟩ i = c := by
  simp [cellAt, List.getD, List.getElem?_set_self', hi]

/-- Writing one slot leaves every other slot unchanged. -/
theorem cellAt_set_ne {α : Type} (cs : List (QCell α)) (e d e2 d2 i j : Nat) (c : QCell α)
    (hij : i ≠ j) : cellAt ⟨cs.set i c, e, d⟩ j = cellAt ⟨cs, e2, d2⟩ j := by
  simp [cellAt, List.getD, List.getElem?_set_ne, hij]

/-- The freshly constructed queue refines the empty list. -/
theorem initQ_rel {α : Type} [Inhabited α] [DecidableEq α] (C : Nat) :
    QRel C (initQ α C) [] := by
  refine ⟨by simp [initQ], le_rfl, by simp [initQ], rfl, ?_, ?_⟩
  · intro k hk
    exact absurd hk (Nat.not_lt_zero k)
  · intro k hk
    have hkC : k < C := by simpa [initQ] using hk
    have hcell : ((List.range C).map (fun i => (⟨i, none⟩ : QCell α)))[k]?
        = some ⟨k, none⟩ := by
      rw [List.getElem?_map, List.getElem?_range hkC]
      rfl
    simp [initQ, cellAt, List.getD, Nat.mod_eq_of_lt hkC, hcell]

/-- C7: under sequential execution the queue refines a FIFO list of capacity
C: starting empty, push appends (failing exactly when C values are buffered),
pop removes the oldest value (failing exactly when empty), and no value is
lost or duplicated (the abstract list tracks the buffered values exactly). -/
theorem atomic_queue_fifo {α : Type} [Inhabited α] [DecidableEq α] (C : Nat) (hC : 2 ≤ C)
    (s : QState α) (l : List α) (v : α) (h : QRel C s l) :
    QRel C (initQ α C) [] ∧
    (l.length < C → ∃ s2, try_push C s v = some (true, s2) ∧ QRel C s2 (l ++ [v])) ∧
    (l.length = C → try_push C s v = some (false, s)) ∧
    (l = [] → try_pop C s = some (false, none, s)) ∧
    (∀ x xs, l = x :: xs → ∃ s2, try_pop C s = some (true, some x, s2) ∧ QRel C s2 xs) := by
  obtain ⟨hlen, hde, hed, hcount, hocc, hfree⟩ := h
  have hC0 : 0 < C := by omega
  refine ⟨initQ_rel C, ?_, ?_, ?_, ?_⟩
  · -- push with spare capacity
    intro hlt
    have hseq : (cellAt s (s.epos % C)).seq = s.epos := by
      have h0 := hfree 0 (by omega)
      simpa using h0
    refine ⟨⟨s.cells.set (s.epos % C) ⟨s.epos + 1, some v⟩, s.epos + 1, s.dpos⟩, ?_, ?_⟩
    · simp [try_push, hseq]
    · refine ⟨by simp [hlen], by dsimp only; omega, by dsimp only; omega,
        by dsimp only; simp; omega, ?_, ?_⟩
      · intro k hk
        simp only [List.length_append, List.length_cons, List.length_nil] at hk
        by_cases hkl : k < l.length
        · have hne : s.epos % C ≠ (s.dpos + k) % C := by
            intro heq
            have heq2 := window_mod_inj (d := s.dpos) (C := C)
              (by omega) (by omega) (by omega) (by omega) heq
            omega
          rw [cellAt_set_ne _ _ _ s.epos s.dpos _ _ _ hne]
          rw [List.getD_append _ _ _ _ hkl]
          exact hocc k hkl
        · have hkeq : k = l.length := by omega
          subst hkeq
          have hepos : s.dpos + l.length = s.epos := by omega
          have hslot : (s.dpos + l.length) % C = s.epos % C := by rw [hepos]
          rw [hslot, cellAt_set_self _ _ _ _ _ (by rw [hlen]; exact Nat.mod_lt _ hC0)]
          have hgd : (l ++ [v]).getD l.length default = v := by
            simp [List.getD]
          simp only [QCell.mk.injEq, hgd]
          exact ⟨by omega, trivial⟩
      · intro k hk
        simp only [List.length_append, List.length_cons, List.length_nil] at hk
        have hold := hfree (k + 1) (by omega)
        have hpos : s.epos + 1 + k = s.epos + (k + 1) := by omega
        have hne : s.epos % C ≠ (s.epos + (k + 1)) % C := by
          intro heq
          have heq2 := window_mod_inj (d := s.dpos) (C := C)
            (by omega) (by omega) (by omega) (by omega) heq
          omega
        rw [hpos, cellAt_set_ne _ _ _ s.epos s.dpos _ _ _ hne]
        exact hold
  · -- push on a full queue
    intro hfull
    have hepos : s.epos = s.dpos + C := by omega
    have hocc0 := hocc 0 (by omega)
    have hslot : s.epos % C = s.dpos % C := by
      rw [hepos, Nat.add_mod_right]
    have hseq : (cellAt s (s.epos % C)).seq = s.dpos + 1 := by
      rw [hslot]
      have h0 : cellAt s (s.dpos % C) = ⟨s.dpos + 1, some (l.getD 0 default)⟩ := by
        simpa using hocc0
      rw [h0]
    have hdiff : ((cellAt s (s.epos % C)).seq : Int) - (s.epos : Int) = 1 - C := by
      rw [hseq, hepos]
      push_cast
      ring
    simp only [try_push]
    rw [hdiff, if_neg (by omega), if_pos (by omega)]
  · -- pop on an empty queue
    intro hnil
    subst hnil
    have hdeq : s.epos = s.dpos := by
      simp at hcount
      omega
    have hfree0 := hfree 0 (by simp; omega)
    have hseq : (cellAt s (s.dpos % C)).seq = s.dpos := by
      rw [← hdeq]
      simpa using hfree0
    have hdiff : ((cellAt s (s.dpos % C)).seq : Int) - ((s.dpos : Int) + 1) = -1 := by
      rw [hseq]
      ring
    simp only [try_pop]
    rw [hdiff, if_neg (by omega), if_pos (by omega)]
  · -- pop from a non-empty queue
    intro x xs hcons
    subst hcons
    simp only [List.length_cons] at hcount hfree
    have hcell : cellAt s (s.dpos % C) = ⟨s.dpos + 1, some x⟩ := by
      have h0 := hocc 0 (by simp)
      simpa using h0
    refine ⟨⟨s.cells.set (s.dpos % C) ⟨s.dpos + C, (cellAt s (s.dpos % C)).data⟩,
            s.epos, s.dpos + 1⟩, ?_, ?_⟩
    · simp [try_pop, hcell]
    · refine ⟨by simp [hlen], by dsimp only; omega, by dsimp only; omega,
        by dsimp only; omega, ?_, ?_⟩
      · intro k hk
        have hold := hocc (k + 1) (by simp; omega)
        have hne : s.dpos % C ≠ (s.dpos + 1 + k) % C := by
          intro heq
          have heq2 := window_mod_inj (d := s.dpos) (C := C)
            (by omega) (by omega) (by omega) (by omega) heq
          omega
        rw [cellAt_set_ne _ _ _ s.epos s.dpos _ _ _ hne]
        have harith : s.dpos + 1 + k = s.dpos + (k + 1) := by omega
        have hgd : (x :: xs).getD (k + 1) default = xs.getD k default := by
          simp [List.getD]
        rw [harith, hold, hgd]
      · intro k hk
        by_cases hkl : k < C - (xs.length + 1)
        · have hold := hfree k (by omega)
          have hne : s.dpos % C ≠ (s.epos + k) % C := by
            intro heq
            have heq2 := window_mod_inj (d := s.dpos) (C := C)
              (by omega) (by omega) (by omega) (by omega) heq
            omega
          rw [cellAt_set_ne _ _ _ s.epos s.dpos _ _ _ hne]
          exact hold
        · have hkeq : s.epos + k = s.dpos + C := by omega
          rw [hkeq, Nat.add_mod_right,
              cellAt_set_self _ _ _ _ _ (by rw [hlen]; exact Nat.mod_lt _ hC0)]

/-- Witness for C7 on a capacity-2 queue of naturals starting empty. -/
theorem atomic_queue_fifo_witness :
    QRel 2 (initQ Nat 2) [] ∧
    (List.length ([] : List Nat) < 2 →
      ∃ s2, try_push 2 (initQ Nat 2) 7 = some (true, s2) ∧ QRel 2 s2 ([] ++ [7])) ∧
    (List.length ([] : List Nat) = 2 →
      try_push 2 (initQ Nat 2) 7 = some (false, initQ Nat 2)) ∧
    (([] : List Nat) = [] → try_pop 2 (initQ Nat 2) = some (false, none, initQ Nat 2)) ∧
    (∀ x xs, ([] : List Nat) = x :: xs →
      ∃ s2, try_pop 2 (initQ Nat 2) = some (true, some x, s2) ∧ QRel 2 s2 xs) :=
  atomic_queue_fifo 2 (by omega) (initQ Nat 2) [] 7 (by decide)
